import Mathlib

/-! Shape-to-band rules and the property fold of `generator/shape.hpp`.

A shallow embedding of `src/include/generator/shape.hpp` and the proofs of its
specified properties.

* `uint32_t` is `Fin 4294967296`: subtraction wraps modulo `2^32` as in C++.
* The seven shape structs are the constructors of `Shape`; an argument of
  `from_properties` is a `Property`: either a value whose deduced type
  `Property` is one of the seven shape structs (`is_shape_type` holds), or a
  value of any other type. Arguments are passed as the call sites of a
  generator pass them, as temporaries, so that `Property` is deduced as the
  argument's own object type; `Argument.deduce` gives the deduced `Property`
  of an argument passed in another way.
* The parameter pack `Properties...` is a list; the `std::tuple` of leftover
  values is a list of values.
* A `throw` is `Except.error (failure.runtime_error what)`; a call for which
  overload resolution finds no function is
  `Except.error failure.no_matching_function`.
-/

namespace generator.shape

/-- The unsigned 32-bit integers: arithmetic is modulo `2^32`. -/
abbrev uint32_t : Type := Fin 4294967296

/-- `struct matrix_size { uint32_t rows, cols; }`. -/
structure matrix_size where
  rows : uint32_t
  cols : uint32_t
deriving DecidableEq, Repr

/-- `struct band`: the two data members; the constructor `band(lower_, upper_)`
is the structure constructor. -/
structure band where
  lower_bandwidth : uint32_t
  upper_bandwidth : uint32_t
deriving DecidableEq, Repr

/-- The constructor `band(const matrix_size & size)`:
`lower_bandwidth(size.rows - 1), upper_bandwidth(size.cols - 1)`. -/
def band.of_size (size : matrix_size) : band :=
  ⟨size.rows - 1, size.cols - 1⟩

/-- What a call can end in other than a returned value. -/
inductive failure where
  /-- A thrown `std::runtime_error(what)`. -/
  | runtime_error (what : String)
  /-- No overload accepts the call: the call is ill-formed. -/
  | no_matching_function
deriving DecidableEq, Repr

/-- The closed set of shape structs. Only `band` carries data of its own;
`tridiagonal` and `diagonal` have a single constructor that fixes the inherited
members, so their objects are all alike. -/
inductive Shape where
  | band (b : band)
  | general
  | self_adjoint
  | upper_triangular
  | lower_triangular
  | tridiagonal
  | diagonal
deriving DecidableEq, Repr

/-- The `static constexpr bool symmetric` member of each shape struct. -/
def Shape.symmetric : Shape → Bool
  | .band _ => false
  | .general => false
  | .self_adjoint => true
  | .upper_triangular => false
  | .lower_triangular => false
  | .tridiagonal => false
  | .diagonal => true

/-- The member function `to_band(const matrix_size &)` of each shape struct. -/
def Shape.to_band : Shape → matrix_size → Except failure generator.shape.band
  | .band b, _ => .ok b
  | .general, size => .ok ⟨size.rows - 1, size.cols - 1⟩
  | .self_adjoint, size =>
    if size.rows ≠ size.cols then
      .error (.runtime_error "Non-square matrix sizes passed to aself-adjoint matrix!")
    else
      .ok ⟨size.rows - 1, size.cols - 1⟩
  | .upper_triangular, size => .ok ⟨0, size.cols - 1⟩
  | .lower_triangular, size => .ok ⟨size.rows - 1, 0⟩
  | .tridiagonal, _ => .ok ⟨1, 1⟩
  | .diagonal, _ => .ok ⟨0, 0⟩

/-- `std::min(a, b)`: returns `b` when `b < a`, otherwise `a`. -/
def std_min (a b : uint32_t) : uint32_t :=
  if b < a then b else a

/-- `band merge_band(const band & first, const band & second)`. -/
def merge_band (first second : band) : band :=
  ⟨std_min first.lower_bandwidth second.lower_bandwidth,
   std_min first.upper_bandwidth second.upper_bandwidth⟩

/-- One argument of `from_properties`, seen through its deduced type
`Property`: one of the seven shape structs, or any other type (with its
value). -/
inductive Property (α : Type) where
  | shape (s : Shape)
  | other (value : α)
deriving DecidableEq, Repr

/-- `is_shape_type<Property>::value`: `true_type` for the seven
specialisations, `false_type` from the primary template. -/
def is_shape_type {α : Type} : Property α → Bool
  | .shape (.band _) => true
  | .shape .general => true
  | .shape .self_adjoint => true
  | .shape .upper_triangular => true
  | .shape .lower_triangular => true
  | .shape .tridiagonal => true
  | .shape .diagonal => true
  | .other _ => false

/-- The four overloads of `detail::from_properties`, called with
`property` followed by the pack `props`. With an empty pack the single-property
overloads are chosen (the non-variadic template is more specialised); the
`enable_if` on `is_shape_type<Property>` chooses between the shape overloads,
which merge `property.to_band(size)` into `band_type` and leave `tuple`
unchanged, and the non-shape overloads, which append `property` to `tuple`. -/
def detail.from_properties {α : Type} (size : matrix_size) (band_type : band)
    (tuple : List α) (property : Property α) :
    List (Property α) → Except failure (band × List α)
  | [] =>
    match property with
    | .shape s =>
      match s.to_band size with
      | .error e => .error e
      | .ok b => .ok (merge_band band_type b, tuple)
    | .other v => .ok (band_type, tuple ++ [v])
  | p :: props =>
    match property with
    | .shape s =>
      match s.to_band size with
      | .error e => .error e
      | .ok b => detail.from_properties size (merge_band band_type b) tuple p props
    | .other v => detail.from_properties size band_type (tuple ++ [v]) p props

/-- The entry point `from_properties(size, props...)`: calls
`detail::from_properties(size, band(size), std::tuple<>{}, props...)`. Every
overload of `detail::from_properties` takes at least one `Property`, so with
an empty pack no overload matches. -/
def from_properties {α : Type} (size : matrix_size) :
    List (Property α) → Except failure (band × List α)
  | [] => .error .no_matching_function
  | p :: props => detail.from_properties size (band.of_size size) [] p props

/-- How an argument expression is bound to the forwarding reference
`Property && property`. Template argument deduction gives `Property = T` for a
temporary of type `T`, `Property = T &` for a named object of type `T` and
`Property = const T &` for a named const object. -/
inductive Passing where
  | temporary
  | named
  | const_named
deriving DecidableEq, Repr

/-- An argument as written at the call site: the object passed, of one of the
seven shape structs or of another type, and the way it is passed. -/
structure Argument (α : Type) where
  object : Shape ⊕ α
  passing : Passing
deriving DecidableEq, Repr

/-- The argument seen through its deduced type `Property`. `is_shape_type` is
specialised for the seven struct types themselves, so only a temporary of a
shape struct has a `Property` on which it holds; for `T &` and `const T &`
the primary template applies, whatever `T` is, and the non-shape overloads
store a copy of the object (`std::make_tuple` decays the reference). -/
def Argument.deduce {α : Type} : Argument α → Property (Shape ⊕ α)
  | ⟨.inl s, .temporary⟩ => .shape s
  | ⟨.inr v, .temporary⟩ => .other (.inr v)
  | ⟨o, .named⟩ => .other o
  | ⟨o, .const_named⟩ => .other o

/-! Projections used to state the properties of the fold. -/

/-- The shape carried by an argument classified as a shape, if any. -/
def Property.shape? {α : Type} : Property α → Option Shape
  | .shape s => some s
  | .other _ => none

/-- The value carried by an argument classified as a non-shape, if any. -/
def Property.other? {α : Type} : Property α → Option α
  | .shape _ => none
  | .other v => some v

/-- The band `s.to_band(size)` returns; `band(0, 0)` stands in where the call
throws, so that the bands of a list of shapes can be named by one function. -/
def Shape.band_at (s : Shape) (size : matrix_size) : generator.shape.band :=
  match s.to_band size with
  | .ok b => b
  | .error _ => ⟨0, 0⟩

end generator.shape

open generator.shape

/-! ## Auxiliary lemmas -/

theorem std_min_eq_min (a b : uint32_t) : std_min a b = min a b := by
  unfold std_min
  rcases lt_or_le b a with h | h
  · rw [if_pos h, min_eq_right h.le]
  · rw [if_neg (not_lt.mpr h), min_eq_left h]

theorem merge_band_lower (a b : band) :
    (merge_band a b).lower_bandwidth = min a.lower_bandwidth b.lower_bandwidth := by
  simp [merge_band, std_min_eq_min]

theorem merge_band_upper (a b : band) :
    (merge_band a b).upper_bandwidth = min a.upper_bandwidth b.upper_bandwidth := by
  simp [merge_band, std_min_eq_min]

theorem band_ext {a b : band} (hl : a.lower_bandwidth = b.lower_bandwidth)
    (hu : a.upper_bandwidth = b.upper_bandwidth) : a = b := by
  cases a; cases b; simp_all

theorem merge_band_comm_aux (a b : band) : merge_band a b = merge_band b a :=
  band_ext (by rw [merge_band_lower, merge_band_lower, min_comm])
    (by rw [merge_band_upper, merge_band_upper, min_comm])

theorem merge_band_assoc_aux (a b c : band) :
    merge_band (merge_band a b) c = merge_band a (merge_band b c) :=
  band_ext (by simp only [merge_band_lower, min_assoc])
    (by simp only [merge_band_upper, min_assoc])

theorem merge_band_right_comm (a b c : band) :
    merge_band (merge_band a b) c = merge_band (merge_band a c) b := by
  rw [merge_band_assoc_aux, merge_band_comm_aux b c, ← merge_band_assoc_aux]

/-- The only failure of a `to_band` is the one thrown by `self_adjoint` on a
non-square size. -/
theorem to_band_cases (s : Shape) (size : matrix_size) :
    (s = Shape.self_adjoint ∧ size.rows ≠ size.cols ∧
      s.to_band size = .error
        (.runtime_error "Non-square matrix sizes passed to aself-adjoint matrix!")) ∨
    (¬ (s = Shape.self_adjoint ∧ size.rows ≠ size.cols) ∧ ∃ b, s.to_band size = .ok b) := by
  cases s <;> simp [Shape.to_band]
  by_cases h : size.rows = size.cols <;> simp [h]

/-- When every shape argument's `to_band` returns, the recursion of
`detail::from_properties` returns the band merged left to right and the tuple
extended by the non-shape values. -/
theorem detail_from_properties_ok {α : Type} (size : matrix_size) (tb : Shape → band)
    (ps : List (Property α)) :
    ∀ (band_type : band) (tuple : List α) (p : Property α),
      (∀ s, Property.shape s ∈ p :: ps → s.to_band size = .ok (tb s)) →
      detail.from_properties size band_type tuple p ps =
        .ok (((p :: ps).filterMap Property.shape?).foldl
              (fun acc s => merge_band acc (tb s)) band_type,
             tuple ++ (p :: ps).filterMap Property.other?) := by
  induction ps with
  | nil =>
    intro band_type tuple p h
    cases p with
    | shape s =>
      have hs := h s (by simp)
      simp [detail.from_properties, hs, Property.shape?, Property.other?]
    | other v =>
      simp [detail.from_properties, Property.shape?, Property.other?]
  | cons q qs ih =>
    intro band_type tuple p h
    have hq : ∀ s, Property.shape s ∈ q :: qs → s.to_band size = .ok (tb s) :=
      fun s hs => h s (List.mem_cons_of_mem _ hs)
    cases p with
    | shape s =>
      have hs := h s (by simp)
      rw [detail.from_properties]
      simp only [hs]
      rw [ih _ _ _ hq]
      simp [Property.shape?, Property.other?]
    | other v =>
      rw [detail.from_properties]
      rw [ih _ _ _ hq]
      simp [Property.shape?, Property.other?]

/-- A `self_adjoint` argument on a non-square size makes the recursion of
`detail::from_properties` end in the exception thrown by its `to_band`. -/
theorem detail_from_properties_error {α : Type} (size : matrix_size)
    (hne : size.rows ≠ size.cols) (ps : List (Property α)) :
    ∀ (band_type : band) (tuple : List α) (p : Property α),
      Property.shape Shape.self_adjoint ∈ p :: ps →
      detail.from_properties size band_type tuple p ps =
        .error (.runtime_error "Non-square matrix sizes passed to aself-adjoint matrix!") := by
  induction ps with
  | nil =>
    intro band_type tuple p h
    have hp : p = Property.shape Shape.self_adjoint := by
      rcases List.mem_cons.mp h with h1 | h1
      · exact h1.symm
      · cases h1
    subst hp
    simp [detail.from_properties, Shape.to_band, hne]
  | cons q qs ih =>
    intro band_type tuple p h
    cases p with
    | shape s =>
      rcases to_band_cases s size with ⟨_, _, he⟩ | ⟨hn, b, hb⟩
      · rw [detail.from_properties]
        simp only [he]
      · have hq : Property.shape Shape.self_adjoint ∈ q :: qs := by
          rcases List.mem_cons.mp h with h1 | h1
          · exfalso
            apply hn
            refine ⟨?_, hne⟩
            injection h1 with h2
            exact h2.symm
          · exact h1
        rw [detail.from_properties]
        simp only [hb]
        exact ih _ _ _ hq
    | other v =>
      have hq : Property.shape Shape.self_adjoint ∈ q :: qs := by
        rcases List.mem_cons.mp h with h1 | h1
        · cases h1
        · exact h1
      rw [detail.from_properties]
      exact ih _ _ _ hq

theorem to_band_eq_band_at (s : Shape) (size : matrix_size)
    (h : ¬ (s = Shape.self_adjoint ∧ size.rows ≠ size.cols)) :
    s.to_band size = .ok (s.band_at size) := by
  rcases to_band_cases s size with ⟨h1, h2, _⟩ | ⟨_, b, hb⟩
  · exact absurd ⟨h1, h2⟩ h
  · simp [Shape.band_at, hb]

theorem band_at_of_ok (s : Shape) (size : matrix_size) (b : band)
    (h : s.to_band size = .ok b) : s.band_at size = b := by
  simp [Shape.band_at, h]

/-- The three ways a call of `from_properties` can end. -/
theorem from_properties_cases {α : Type} (size : matrix_size) (ps : List (Property α)) :
    (ps = [] ∧ from_properties size ps = .error .no_matching_function) ∨
    (Property.shape Shape.self_adjoint ∈ ps ∧ size.rows ≠ size.cols ∧
      from_properties size ps = .error
        (.runtime_error "Non-square matrix sizes passed to aself-adjoint matrix!")) ∨
    (ps ≠ [] ∧ ¬ (Property.shape Shape.self_adjoint ∈ ps ∧ size.rows ≠ size.cols) ∧
      from_properties size ps =
        .ok ((ps.filterMap Property.shape?).foldl
              (fun acc s => merge_band acc (s.band_at size)) (band.of_size size),
             ps.filterMap Property.other?)) := by
  cases ps with
  | nil => exact Or.inl ⟨rfl, rfl⟩
  | cons p ps =>
    right
    by_cases h : Property.shape Shape.self_adjoint ∈ p :: ps ∧ size.rows ≠ size.cols
    · left
      exact ⟨h.1, h.2, detail_from_properties_error size h.2 ps _ _ p h.1⟩
    · right
      refine ⟨List.cons_ne_nil _ _, h, ?_⟩
      have hb : ∀ s, Property.shape s ∈ p :: ps → s.to_band size = .ok (s.band_at size) := by
        intro s hs
        apply to_band_eq_band_at
        rintro ⟨rfl, hne⟩
        exact h ⟨hs, hne⟩
      have := detail_from_properties_ok size (fun s => s.band_at size) ps
        (band.of_size size) [] p hb
      simpa [from_properties] using this

/-- Merging the bands of a list of shapes takes the minimum of the lower
bandwidths. -/
theorem foldl_merge_band_lower (tb : Shape → band) (ss : List Shape) :
    ∀ b : band, (ss.foldl (fun acc s => merge_band acc (tb s)) b).lower_bandwidth =
      (ss.map (fun s => (tb s).lower_bandwidth)).foldl min b.lower_bandwidth := by
  induction ss with
  | nil => intro b; rfl
  | cons s ss ih =>
    intro b
    simp only [List.foldl_cons, List.map_cons]
    rw [ih, merge_band_lower]

/-- Merging the bands of a list of shapes takes the minimum of the upper
bandwidths. -/
theorem foldl_merge_band_upper (tb : Shape → band) (ss : List Shape) :
    ∀ b : band, (ss.foldl (fun acc s => merge_band acc (tb s)) b).upper_bandwidth =
      (ss.map (fun s => (tb s).upper_bandwidth)).foldl min b.upper_bandwidth := by
  induction ss with
  | nil => intro b; rfl
  | cons s ss ih =>
    intro b
    simp only [List.foldl_cons, List.map_cons]
    rw [ih, merge_band_upper]

/-- The merge over a list depends only on the bands of the shapes in it. -/
theorem foldl_merge_band_congr (tb tb2 : Shape → band) (ss : List Shape)
    (h : ∀ s ∈ ss, tb s = tb2 s) :
    ∀ b : band, ss.foldl (fun acc s => merge_band acc (tb s)) b =
      ss.foldl (fun acc s => merge_band acc (tb2 s)) b := by
  induction ss with
  | nil => intro b; rfl
  | cons s ss ih =>
    intro b
    simp only [List.foldl_cons]
    rw [h s (by simp), ih (fun s hs => h s (List.mem_cons_of_mem _ hs))]

theorem mem_filterMap_shape {α : Type} (ps : List (Property α)) (s : Shape) :
    s ∈ ps.filterMap Property.shape? ↔ Property.shape s ∈ ps := by
  simp only [List.mem_filterMap]
  constructor
  · rintro ⟨p, hp, hs⟩
    cases p with
    | shape t =>
      simp only [Property.shape?, Option.some.injEq] at hs
      subst hs
      exact hp
    | other v => simp [Property.shape?] at hs
  · intro h
    exact ⟨_, h, rfl⟩

/-! ## The property fold: band and leftover values -/

/-- C1: when no shape argument's `to_band` fails (each shape `s` in the list
returns the band `tb s`, and `general` returns `g`), the band returned by
`from_properties` is the left-to-right accumulation that starts at
`general.to_band(size)` and merges in `s.to_band(size)` for the shape
arguments `s` of the list; a non-empty list does return it. Its lower (upper)
bandwidth is the minimum of `rows - 1` (`cols - 1`) and the lower (upper)
bandwidths of the shapes' bands. Only the shape arguments enter the
accumulation: the other arguments do not influence the band. -/
theorem from_properties_band_accumulates {α : Type} (size : matrix_size)
    (ps : List (Property α)) (g : band) (tb : Shape → band)
    (hg : Shape.general.to_band size = .ok g)
    (htb : ∀ s, Property.shape s ∈ ps → s.to_band size = .ok (tb s)) :
    (∀ r, from_properties size ps = .ok r →
      r.1 = (ps.filterMap Property.shape?).foldl (fun acc s => merge_band acc (tb s)) g) ∧
    (ps ≠ [] → ∃ rest, from_properties size ps =
      .ok ((ps.filterMap Property.shape?).foldl (fun acc s => merge_band acc (tb s)) g, rest)) ∧
    ((ps.filterMap Property.shape?).foldl
        (fun acc s => merge_band acc (tb s)) g).lower_bandwidth =
      ((ps.filterMap Property.shape?).map (fun s => (tb s).lower_bandwidth)).foldl min
        (size.rows - 1) ∧
    ((ps.filterMap Property.shape?).foldl
        (fun acc s => merge_band acc (tb s)) g).upper_bandwidth =
      ((ps.filterMap Property.shape?).map (fun s => (tb s).upper_bandwidth)).foldl min
        (size.cols - 1) := by
  have hg2 : g = band.of_size size := by
    simp only [Shape.to_band, Except.ok.injEq] at hg
    rw [← hg]
    rfl
  subst hg2
  have hcongr : (ps.filterMap Property.shape?).foldl
        (fun acc s => merge_band acc (s.band_at size)) (band.of_size size) =
      (ps.filterMap Property.shape?).foldl
        (fun acc s => merge_band acc (tb s)) (band.of_size size) := by
    apply foldl_merge_band_congr
    intro s hs
    exact band_at_of_ok s size _ (htb s ((mem_filterMap_shape ps s).mp hs))
  have hfail : ¬ (Property.shape Shape.self_adjoint ∈ ps ∧ size.rows ≠ size.cols) := by
    rintro ⟨hm, hne⟩
    have h1 := htb _ hm
    simp [Shape.to_band, hne] at h1
  refine ⟨?_, ?_, ?_, ?_⟩
  · intro r hr
    rcases from_properties_cases size ps with ⟨_, h⟩ | ⟨_, _, h⟩ | ⟨_, _, h⟩
    · rw [h] at hr; cases hr
    · rw [h] at hr; cases hr
    · rw [h] at hr
      injection hr with hr
      rw [← hr, ← hcongr]
  · intro hne
    rcases from_properties_cases size ps with ⟨h0, _⟩ | ⟨hm, hn, _⟩ | ⟨_, _, h⟩
    · exact absurd h0 hne
    · exact absurd ⟨hm, hn⟩ hfail
    · exact ⟨_, by rw [h, hcongr]⟩
  · rw [foldl_merge_band_lower]
    rfl
  · rw [foldl_merge_band_upper]
    rfl

/-- C1 at `fold(5x5, [UpperTriangular, Diagonal])`: the band is `(0, 0)`. -/
theorem from_properties_band_accumulates_witness :
    ∃ rest, from_properties ⟨5, 5⟩
      ([.shape .upper_triangular, .shape .diagonal] : List (Property Nat)) =
        .ok (⟨0, 0⟩, rest) :=
  (from_properties_band_accumulates ⟨5, 5⟩
    ([.shape .upper_triangular, .shape .diagonal] : List (Property Nat)) ⟨4, 4⟩
    (fun s => s.band_at ⟨5, 5⟩) rfl
    (by
      intro s hs
      simp only [List.mem_cons, Property.shape.injEq, List.mem_singleton, List.mem_nil_iff,
        or_false] at hs
      rcases hs with rfl | rfl <;> rfl)).2.1 (by simp)

/-- C2: when `from_properties` succeeds, the leftover sequence it returns is
exactly the subsequence of the non-shape arguments of the list: the values of
the arguments for which `is_shape_type` is false, each once, unchanged and in
the order supplied; no shape argument is in it. -/
theorem from_properties_leftover {α : Type} (size : matrix_size)
    (ps : List (Property α)) (r : band × List α)
    (h : from_properties size ps = .ok r) :
    r.2 = ps.filterMap Property.other? ∧
    r.2.map Property.other = ps.filter (fun p => !is_shape_type p) ∧
    (r.2.map Property.other).Sublist ps ∧
    ∀ p ∈ r.2.map Property.other, is_shape_type p = false := by
  have h1 : r.2 = ps.filterMap Property.other? := by
    rcases from_properties_cases size ps with ⟨_, h2⟩ | ⟨_, _, h2⟩ | ⟨_, _, h2⟩
    · rw [h2] at h; cases h
    · rw [h2] at h; cases h
    · rw [h2] at h
      injection h with h
      rw [← h]
  have h2 : ∀ qs : List (Property α),
      (qs.filterMap Property.other?).map Property.other =
        qs.filter (fun p => !is_shape_type p) := by
    intro qs
    induction qs with
    | nil => rfl
    | cons q qs ih =>
      cases q with
      | shape s => cases s <;> simpa [Property.other?, is_shape_type] using ih
      | other v => simpa [Property.other?, is_shape_type] using ih
  refine ⟨h1, ?_, ?_, ?_⟩
  · rw [h1, h2]
  · rw [h1, h2]
    exact List.filter_sublist ps
  · intro p hp
    rw [h1, h2] at hp
    simpa using (List.mem_filter.mp hp).2

/-- C2 at `fold(4x4, [42, LowerTriangular, "seed"])`: the result is
`((3, 0), [42, "seed"])`. -/
theorem from_properties_leftover_witness :
    from_properties ⟨4, 4⟩
      ([.other (.inl 42), .shape .lower_triangular, .other (.inr "seed")] :
        List (Property (Nat ⊕ String))) =
        .ok (⟨3, 0⟩, [.inl 42, .inr "seed"]) ∧
    [.inl 42, .inr "seed"] =
      ([.other (.inl 42), .shape .lower_triangular, .other (.inr "seed")] :
        List (Property (Nat ⊕ String))).filterMap Property.other? :=
  ⟨rfl, (from_properties_leftover ⟨4, 4⟩
    ([.other (.inl 42), .shape .lower_triangular, .other (.inr "seed")] :
      List (Property (Nat ⊕ String)))
    (⟨3, 0⟩, [.inl 42, .inr "seed"]) rfl).1⟩

/-! ## Failure of the fold -/

/-- C3, the claim as stated fails on the empty list: `from_properties(size)`
with no property does not succeed (no overload matches), although the list
holds no `self_adjoint` and the size is square. -/
theorem from_properties_fails_iff_counterexample :
    from_properties ⟨3, 3⟩ ([] : List (Property Nat)) = .error .no_matching_function ∧
    (¬ ∃ r, from_properties ⟨3, 3⟩ ([] : List (Property Nat)) = .ok r) ∧
    ¬ (Property.shape Shape.self_adjoint ∈ ([] : List (Property Nat)) ∧
        (3 : uint32_t) ≠ 3) := by
  refine ⟨rfl, ?_, ?_⟩
  · rintro ⟨r, hr⟩
    cases hr
  · rintro ⟨h, _⟩
    cases h

/-- C3, amended to non-empty lists: `from_properties` fails if and only if the
list holds a `self_adjoint` argument and `rows ≠ cols`; the failure is the
exception of `self_adjoint::to_band`, unmodified, and no band or leftover
sequence is returned with it; in every other case the fold succeeds. -/
theorem from_properties_fails_iff {α : Type} (size : matrix_size)
    (ps : List (Property α)) (hps : ps ≠ []) :
    ((∃ e, from_properties size ps = .error e) ↔
      (Property.shape Shape.self_adjoint ∈ ps ∧ size.rows ≠ size.cols)) ∧
    (∀ e, from_properties size ps = .error e →
      Shape.self_adjoint.to_band size = .error e ∧
      ∀ r, from_properties size ps ≠ .ok r) ∧
    (¬ (Property.shape Shape.self_adjoint ∈ ps ∧ size.rows ≠ size.cols) →
      ∃ r, from_properties size ps = .ok r) := by
  rcases from_properties_cases size ps with ⟨h0, _⟩ | ⟨hm, hn, h⟩ | ⟨_, hn, h⟩
  · exact absurd h0 hps
  · refine ⟨⟨fun _ => ⟨hm, hn⟩, fun _ => ⟨_, h⟩⟩, ?_, fun hc => absurd ⟨hm, hn⟩ hc⟩
    intro e he
    rw [h] at he
    injection he with he
    subst he
    refine ⟨by simp [Shape.to_band, hn], ?_⟩
    intro r hr
    rw [h] at hr
    cases hr
  · refine ⟨⟨?_, fun hc => absurd hc hn⟩, ?_, fun _ => ⟨_, h⟩⟩
    · rintro ⟨e, he⟩
      rw [h] at he
      cases he
    · intro e he
      rw [h] at he
      cases he

/-- C3 (amended) at `3x4`: with `self_adjoint` between other arguments the
fold fails; without it the fold succeeds. -/
theorem from_properties_fails_iff_witness :
    (∃ e, from_properties ⟨3, 4⟩
      ([.other 7, .shape .self_adjoint, .shape .diagonal] : List (Property Nat)) =
        .error e) ∧
    (∃ r, from_properties ⟨3, 4⟩
      ([.other 7, .shape .diagonal] : List (Property Nat)) = .ok r) :=
  ⟨(from_properties_fails_iff ⟨3, 4⟩
      ([.other 7, .shape .self_adjoint, .shape .diagonal] : List (Property Nat))
      (by simp)).1.mpr ⟨by simp, by decide⟩,
   (from_properties_fails_iff ⟨3, 4⟩
      ([.other 7, .shape .diagonal] : List (Property Nat))
      (by simp)).2.2 (by simp)⟩

/-- C4: on a square size with `rows ≥ 1`, `self_adjoint::to_band` returns the
band `(rows - 1, cols - 1)`; on a non-square size it throws and returns no
band. -/
theorem self_adjoint_to_band (size : matrix_size) :
    (size.rows = size.cols → 1 ≤ size.rows.val →
      ∃ b, Shape.self_adjoint.to_band size = .ok b ∧
        b.lower_bandwidth.val = size.rows.val - 1 ∧
        b.upper_bandwidth.val = size.cols.val - 1) ∧
    (size.rows ≠ size.cols →
      Shape.self_adjoint.to_band size = .error
        (.runtime_error "Non-square matrix sizes passed to aself-adjoint matrix!") ∧
      ∀ b, Shape.self_adjoint.to_band size ≠ .ok b) := by
  constructor
  · intro heq hpos
    refine ⟨⟨size.rows - 1, size.cols - 1⟩, by simp [Shape.to_band, heq], ?_, ?_⟩
    · show (size.rows - 1).val = size.rows.val - 1
      omega
    · have hc : 1 ≤ size.cols.val := heq ▸ hpos
      show (size.cols - 1).val = size.cols.val - 1
      omega
  · intro hne
    have h : Shape.self_adjoint.to_band size = .error
        (.runtime_error "Non-square matrix sizes passed to aself-adjoint matrix!") := by
      simp [Shape.to_band, hne]
    refine ⟨h, ?_⟩
    intro b hb
    rw [h] at hb
    cases hb

/-- C4 at `4x4` (returns `(3, 3)`) and at `2x3` (throws). -/
theorem self_adjoint_to_band_witness :
    (∃ b, Shape.self_adjoint.to_band ⟨4, 4⟩ = .ok b ∧
        b.lower_bandwidth.val = 3 ∧ b.upper_bandwidth.val = 3) ∧
    Shape.self_adjoint.to_band ⟨2, 3⟩ = .error
      (.runtime_error "Non-square matrix sizes passed to aself-adjoint matrix!") :=
  ⟨(self_adjoint_to_band ⟨4, 4⟩).1 rfl (by decide),
   ((self_adjoint_to_band ⟨2, 3⟩).2 (by decide)).1⟩

/-! ## The band merge -/

/-- C5: `merge_band(a, b)` is the band of the componentwise minima, and it is
the greatest lower bound of `a` and `b` in the componentwise order: below `a`
and below `b` in both components, and above every band that is below both. -/
theorem merge_band_is_meet (a b : band) :
    merge_band a b =
      ⟨min a.lower_bandwidth b.lower_bandwidth, min a.upper_bandwidth b.upper_bandwidth⟩ ∧
    ((merge_band a b).lower_bandwidth ≤ a.lower_bandwidth ∧
      (merge_band a b).upper_bandwidth ≤ a.upper_bandwidth) ∧
    ((merge_band a b).lower_bandwidth ≤ b.lower_bandwidth ∧
      (merge_band a b).upper_bandwidth ≤ b.upper_bandwidth) ∧
    ∀ c : band,
      (c.lower_bandwidth ≤ a.lower_bandwidth ∧ c.upper_bandwidth ≤ a.upper_bandwidth) →
      (c.lower_bandwidth ≤ b.lower_bandwidth ∧ c.upper_bandwidth ≤ b.upper_bandwidth) →
      (c.lower_bandwidth ≤ (merge_band a b).lower_bandwidth ∧
        c.upper_bandwidth ≤ (merge_band a b).upper_bandwidth) := by
  refine ⟨band_ext (merge_band_lower a b) (merge_band_upper a b), ?_, ?_, ?_⟩
  · rw [merge_band_lower, merge_band_upper]
    exact ⟨min_le_left _ _, min_le_left _ _⟩
  · rw [merge_band_lower, merge_band_upper]
    exact ⟨min_le_right _ _, min_le_right _ _⟩
  · intro c hca hcb
    rw [merge_band_lower, merge_band_upper]
    exact ⟨le_min hca.1 hcb.1, le_min hca.2 hcb.2⟩

/-- C5 at `a = (3, 1)`, `b = (2, 5)`: the merge is `(2, 1)`, and the band
`(1, 1)`, below both, is below it. -/
theorem merge_band_is_meet_witness :
    merge_band ⟨3, 1⟩ ⟨2, 5⟩ = ⟨2, 1⟩ ∧
    ((1 : uint32_t) ≤ (merge_band ⟨3, 1⟩ ⟨2, 5⟩).lower_bandwidth ∧
      (1 : uint32_t) ≤ (merge_band ⟨3, 1⟩ ⟨2, 5⟩).upper_bandwidth) :=
  ⟨(merge_band_is_meet ⟨3, 1⟩ ⟨2, 5⟩).1,
   (merge_band_is_meet ⟨3, 1⟩ ⟨2, 5⟩).2.2.2 ⟨1, 1⟩
     ⟨by decide, by decide⟩ ⟨by decide, by decide⟩⟩

/-- C6: `merge_band` is commutative, associative and idempotent. -/
theorem merge_band_comm_assoc_idem (a b c : band) :
    merge_band a b = merge_band b a ∧
    merge_band (merge_band a b) c = merge_band a (merge_band b c) ∧
    merge_band a a = a :=
  ⟨merge_band_comm_aux a b, merge_band_assoc_aux a b c,
   band_ext (by rw [merge_band_lower, min_self]) (by rw [merge_band_upper, min_self])⟩

/-! ## Order of the arguments -/

/-- C7: for two property lists that are permutations of each other, the fold
succeeds on one if and only if it succeeds on the other, and when it succeeds
both folds return the same band. -/
theorem from_properties_perm {α : Type} (size : matrix_size)
    (ps qs : List (Property α)) (h : ps.Perm qs) :
    ((∃ r, from_properties size ps = .ok r) ↔ (∃ r, from_properties size qs = .ok r)) ∧
    ∀ r r2, from_properties size ps = .ok r → from_properties size qs = .ok r2 →
      r.1 = r2.1 := by
  have hsa : Property.shape Shape.self_adjoint ∈ ps ↔
      Property.shape Shape.self_adjoint ∈ qs := h.mem_iff
  have hnil : ps = [] ↔ qs = [] := ⟨fun e => (e ▸ h).nil_eq.symm, fun e => (e ▸ h).eq_nil⟩
  have hband : (ps.filterMap Property.shape?).foldl
        (fun acc s => merge_band acc (s.band_at size)) (band.of_size size) =
      (qs.filterMap Property.shape?).foldl
        (fun acc s => merge_band acc (s.band_at size)) (band.of_size size) :=
    List.Perm.foldl_eq' (h.filterMap Property.shape?)
      (fun x _ y _ z => merge_band_right_comm z (x.band_at size) (y.band_at size)) _
  have hfail : (Property.shape Shape.self_adjoint ∈ ps ∧ size.rows ≠ size.cols) ↔
      (Property.shape Shape.self_adjoint ∈ qs ∧ size.rows ≠ size.cols) := by
    rw [hsa]
  have hok : ∀ (xs : List (Property α)),
      (∃ r, from_properties size xs = .ok r) ↔
        (xs ≠ [] ∧ ¬ (Property.shape Shape.self_adjoint ∈ xs ∧ size.rows ≠ size.cols)) := by
    intro xs
    rcases from_properties_cases size xs with ⟨x0, hx⟩ | ⟨xm, xn, hx⟩ | ⟨x0, xn, hx⟩
    · rw [hx]
      exact ⟨fun ⟨_, e⟩ => (by cases e), fun ⟨c, _⟩ => absurd x0 c⟩
    · rw [hx]
      exact ⟨fun ⟨_, e⟩ => (by cases e), fun ⟨_, c⟩ => absurd ⟨xm, xn⟩ c⟩
    · rw [hx]
      exact ⟨fun _ => ⟨x0, xn⟩, fun _ => ⟨_, rfl⟩⟩
  refine ⟨?_, ?_⟩
  · rw [hok ps, hok qs, hfail, Ne, Ne, hnil]
  · intro r r2 e1 e2
    have h1 := (hok ps).mp ⟨r, e1⟩
    have h2 := (hok qs).mp ⟨r2, e2⟩
    rcases from_properties_cases size ps with ⟨p0, _⟩ | ⟨pm, pn, _⟩ | ⟨_, _, hp⟩
    · exact absurd p0 h1.1
    · exact absurd ⟨pm, pn⟩ h1.2
    · rcases from_properties_cases size qs with ⟨q0, _⟩ | ⟨qm, qn, _⟩ | ⟨_, _, hq⟩
      · exact absurd q0 h2.1
      · exact absurd ⟨qm, qn⟩ h2.2
      · rw [hp] at e1
        rw [hq] at e2
        injection e1 with e1
        injection e2 with e2
        rw [← e1, ← e2]
        exact hband

/-- C7 at `4x4`: the fold succeeds on `[UpperTriangular, 9, Tridiagonal]` with
band `(0, 1)`, hence also on its permutation
`[Tridiagonal, UpperTriangular, 9]`. -/
theorem from_properties_perm_witness :
    from_properties ⟨4, 4⟩
      ([.shape .upper_triangular, .other 9, .shape .tridiagonal] : List (Property Nat)) =
        .ok (⟨0, 1⟩, [9]) ∧
    ∃ r, from_properties ⟨4, 4⟩
      ([.shape .tridiagonal, .shape .upper_triangular, .other 9] : List (Property Nat)) =
        .ok r :=
  ⟨rfl, (from_properties_perm ⟨4, 4⟩
      ([.shape .upper_triangular, .other 9, .shape .tridiagonal] : List (Property Nat))
      ([.shape .tridiagonal, .shape .upper_triangular, .other 9] : List (Property Nat))
      (by decide)).1.mp ⟨(⟨0, 1⟩, [9]), rfl⟩⟩

/-! ## Lists without shapes -/

/-- C8, the claim as stated fails: at `3x3`, `general.to_band` returns
`(2, 2)`, but `from_properties(size)` with no property does not return
`((2, 2), [])`: it returns nothing, as no overload matches. -/
theorem from_properties_nil_counterexample :
    Shape.general.to_band ⟨3, 3⟩ = .ok ⟨2, 2⟩ ∧
    from_properties ⟨3, 3⟩ ([] : List (Property Nat)) ≠ .ok (⟨2, 2⟩, []) ∧
    ¬ ∃ r, from_properties ⟨3, 3⟩ ([] : List (Property Nat)) = .ok r := by
  refine ⟨rfl, ?_, ?_⟩
  · intro h
    cases h
  · rintro ⟨r, h⟩
    cases h

/-- C8, amended: for every size, `from_properties(size)` with an empty
property pack matches no overload of `detail::from_properties` (each takes at
least one property) and returns no band and no sequence. The state the fold
would start from is `band(size)`, which is what `general.to_band(size)`
returns, and the empty tuple. -/
theorem from_properties_nil {α : Type} (size : matrix_size) :
    from_properties size ([] : List (Property α)) = .error .no_matching_function ∧
    (∀ r, from_properties size ([] : List (Property α)) ≠ .ok r) ∧
    Shape.general.to_band size = .ok (band.of_size size) := by
  refine ⟨rfl, ?_, rfl⟩
  intro r h
  cases h

/-- C9: on a non-empty list without shape arguments the fold succeeds, the
band is `general.to_band(size)`, which is the initial `band(size)`, and the
leftover sequence is the whole input list. -/
theorem from_properties_no_shape {α : Type} (size : matrix_size)
    (ps : List (Property α)) (hne : ps ≠ [])
    (hno : ∀ p ∈ ps, is_shape_type p = false) :
    ∃ g rest, Shape.general.to_band size = .ok g ∧ band.of_size size = g ∧
      from_properties size ps = .ok (g, rest) ∧ rest.map Property.other = ps := by
  have hsh : ps.filterMap Property.shape? = [] := by
    rw [List.filterMap_eq_nil_iff]
    intro p hp
    have := hno p hp
    cases p with
    | shape s => cases s <;> simp [is_shape_type] at this
    | other v => rfl
  have hot : ∀ qs : List (Property α), (∀ p ∈ qs, is_shape_type p = false) →
      (qs.filterMap Property.other?).map Property.other = qs := by
    intro qs
    induction qs with
    | nil => intro _; rfl
    | cons q qs ih =>
      intro hq
      have h1 := hq q (by simp)
      have h2 := ih (fun p hp => hq p (List.mem_cons_of_mem _ hp))
      cases q with
      | shape s => cases s <;> simp [is_shape_type] at h1
      | other v => simpa [Property.other?] using h2
  refine ⟨band.of_size size, ps.filterMap Property.other?, rfl, rfl, ?_, hot ps hno⟩
  rcases from_properties_cases size ps with ⟨h0, _⟩ | ⟨hm, _, _⟩ | ⟨_, _, h⟩
  · exact absurd h0 hne
  · have := hno _ hm
    simp [is_shape_type] at this
  · rw [h, hsh]
    rfl

/-- C9 at `3x5` with the arguments `[1, 2]`: the result is `((2, 4), [1, 2])`. -/
theorem from_properties_no_shape_witness :
    ∃ g rest, Shape.general.to_band ⟨3, 5⟩ = .ok g ∧ band.of_size ⟨3, 5⟩ = g ∧
      from_properties ⟨3, 5⟩ ([.other 1, .other 2] : List (Property Nat)) = .ok (g, rest) ∧
      rest.map Property.other = ([.other 1, .other 2] : List (Property Nat)) :=
  from_properties_no_shape ⟨3, 5⟩ ([.other 1, .other 2] : List (Property Nat))
    (by simp) (by
      intro p hp
      simp only [List.mem_cons, List.mem_singleton, List.mem_nil_iff, or_false] at hp
      rcases hp with rfl | rfl <;> rfl)

/-! ## The shape table -/

/-- C10: for `rows ≥ 1` and `cols ≥ 1`, `general.to_band` and the constructor
`band(size)` give `(rows - 1, cols - 1)`, `upper_triangular.to_band` gives
`(0, cols - 1)` and `lower_triangular.to_band` gives `(rows - 1, 0)`; for
every size, square or not, `tridiagonal.to_band` gives `(1, 1)` and
`diagonal.to_band` gives `(0, 0)`. -/
theorem to_band_table (size : matrix_size) :
    (1 ≤ size.rows.val → 1 ≤ size.cols.val →
      ∃ lo up : uint32_t, lo.val = size.rows.val - 1 ∧ up.val = size.cols.val - 1 ∧
        Shape.general.to_band size = .ok ⟨lo, up⟩ ∧
        band.of_size size = ⟨lo, up⟩ ∧
        Shape.upper_triangular.to_band size = .ok ⟨0, up⟩ ∧
        Shape.lower_triangular.to_band size = .ok ⟨lo, 0⟩) ∧
    Shape.tridiagonal.to_band size = .ok ⟨1, 1⟩ ∧
    Shape.diagonal.to_band size = .ok ⟨0, 0⟩ := by
  refine ⟨?_, rfl, rfl⟩
  intro hr hc
  refine ⟨size.rows - 1, size.cols - 1, ?_, ?_, rfl, rfl, rfl, rfl⟩
  · omega
  · omega

/-- C10 at `3x5`: `general` and `band(size)` give `(2, 4)`, `upper_triangular`
gives `(0, 4)`, `lower_triangular` gives `(2, 0)`. -/
theorem to_band_table_witness :
    ∃ lo up : uint32_t, lo.val = 3 - 1 ∧ up.val = 5 - 1 ∧
      Shape.general.to_band ⟨3, 5⟩ = .ok ⟨lo, up⟩ ∧
      band.of_size ⟨3, 5⟩ = ⟨lo, up⟩ ∧
      Shape.upper_triangular.to_band ⟨3, 5⟩ = .ok ⟨0, up⟩ ∧
      Shape.lower_triangular.to_band ⟨3, 5⟩ = .ok ⟨lo, 0⟩ :=
  (to_band_table ⟨3, 5⟩).1 (by decide) (by decide)

/-! ## Shapes one by one -/

/-- C11: an explicit `band(l, u)` used as a shape is the identity mapping: its
`to_band` returns `(l, u)` for every size. -/
theorem band_to_band (l u : uint32_t) (size : matrix_size) :
    (Shape.band ⟨l, u⟩).to_band size = .ok ⟨l, u⟩ ∧
    ∀ size2 : matrix_size,
      (Shape.band ⟨l, u⟩).to_band size2 = (Shape.band ⟨l, u⟩).to_band size :=
  ⟨rfl, fun _ => rfl⟩

/-- C12: the static flag `symmetric` is true exactly for `self_adjoint` and
`diagonal`, and false for `band` (whatever its members), `general`,
`upper_triangular`, `lower_triangular` and `tridiagonal`; it takes no size and
no instance data. -/
theorem symmetric_table (s : Shape) :
    (s.symmetric = true ↔ (s = Shape.self_adjoint ∨ s = Shape.diagonal)) ∧
    (∀ b : band, (Shape.band b).symmetric = false) ∧
    Shape.general.symmetric = false ∧
    Shape.self_adjoint.symmetric = true ∧
    Shape.upper_triangular.symmetric = false ∧
    Shape.lower_triangular.symmetric = false ∧
    Shape.tridiagonal.symmetric = false ∧
    Shape.diagonal.symmetric = true := by
  refine ⟨?_, fun _ => rfl, rfl, rfl, rfl, rfl, rfl, rfl⟩
  cases s <;> simp [Shape.symmetric]

/-- C13, the claim as stated fails for `tridiagonal`: on a `1x1` matrix its
`to_band` succeeds with `(1, 1)`, and `1 > rows - 1 = 0`. -/
theorem to_band_within_size_counterexample :
    Shape.tridiagonal.to_band ⟨1, 1⟩ = .ok ⟨1, 1⟩ ∧
    ¬ ((⟨1, 1⟩ : band).lower_bandwidth.val ≤ (1 : uint32_t).val - 1) ∧
    ¬ ((⟨1, 1⟩ : band).upper_bandwidth.val ≤ (1 : uint32_t).val - 1) := by
  refine ⟨rfl, ?_, ?_⟩ <;> decide

/-- C13, amended: for `rows ≥ 1` and `cols ≥ 1`, whenever the `to_band` of
`general`, `self_adjoint`, `upper_triangular`, `lower_triangular` or
`diagonal` succeeds, the band has `lower ≤ rows - 1` and `upper ≤ cols - 1`;
`tridiagonal` returns `(1, 1)` whatever the size, which is within these bounds
exactly when `rows ≥ 2` and `cols ≥ 2`. -/
theorem to_band_within_size (size : matrix_size) (s : Shape) (b : band)
    (hr : 1 ≤ size.rows.val) (hc : 1 ≤ size.cols.val)
    (hs : s = Shape.general ∨ s = Shape.self_adjoint ∨ s = Shape.upper_triangular ∨
      s = Shape.lower_triangular ∨ s = Shape.tridiagonal ∨ s = Shape.diagonal)
    (hb : s.to_band size = .ok b) :
    (s ≠ Shape.tridiagonal →
      b.lower_bandwidth.val ≤ size.rows.val - 1 ∧
      b.upper_bandwidth.val ≤ size.cols.val - 1) ∧
    (s = Shape.tridiagonal →
      b = ⟨1, 1⟩ ∧
      ((b.lower_bandwidth.val ≤ size.rows.val - 1 ∧
        b.upper_bandwidth.val ≤ size.cols.val - 1) ↔
        (2 ≤ size.rows.val ∧ 2 ≤ size.cols.val))) := by
  have h1 : (size.rows - 1).val = size.rows.val - 1 := by omega
  have h2 : (size.cols - 1).val = size.cols.val - 1 := by omega
  rcases hs with rfl | rfl | rfl | rfl | rfl | rfl
  · simp only [Shape.to_band, Except.ok.injEq] at hb
    subst hb
    exact ⟨fun _ => ⟨h1.le, h2.le⟩, fun h => by cases h⟩
  · refine ⟨fun _ => ?_, fun h => by cases h⟩
    by_cases hne : size.rows = size.cols
    · simp only [Shape.to_band, hne, ne_eq, not_true_eq_false, if_false,
        Except.ok.injEq] at hb
      subst hb
      rw [hne] at h1
      exact ⟨by simpa [hne] using h1.le, h2.le⟩
    · simp [Shape.to_band, hne] at hb
  · simp only [Shape.to_band, Except.ok.injEq] at hb
    subst hb
    exact ⟨fun _ => ⟨Nat.zero_le _, h2.le⟩, fun h => by cases h⟩
  · simp only [Shape.to_band, Except.ok.injEq] at hb
    subst hb
    exact ⟨fun _ => ⟨h1.le, Nat.zero_le _⟩, fun h => by cases h⟩
  · simp only [Shape.to_band, Except.ok.injEq] at hb
    subst hb
    refine ⟨fun h => absurd rfl h, fun _ => ⟨rfl, ?_⟩⟩
    show ((1 : uint32_t).val ≤ size.rows.val - 1 ∧ (1 : uint32_t).val ≤ size.cols.val - 1) ↔ _
    have : (1 : uint32_t).val = 1 := rfl
    rw [this]
    omega
  · simp only [Shape.to_band, Except.ok.injEq] at hb
    subst hb
    exact ⟨fun _ => ⟨Nat.zero_le _, Nat.zero_le _⟩, fun h => by cases h⟩

/-- C13 (amended) at `3x5` for `upper_triangular`: the band `(0, 4)` is within
`(2, 4)`. -/
theorem to_band_within_size_witness :
    (⟨0, 4⟩ : band).lower_bandwidth.val ≤ (3 : uint32_t).val - 1 ∧
    (⟨0, 4⟩ : band).upper_bandwidth.val ≤ (5 : uint32_t).val - 1 :=
  (to_band_within_size ⟨3, 5⟩ Shape.upper_triangular ⟨0, 4⟩ (by decide) (by decide)
    (Or.inr (Or.inr (Or.inl rfl))) rfl).1 (by decide)

/-! ## Classification of the arguments -/

/-- The deduced `Property` of an argument is a shape type exactly when the
object is of a shape struct and is passed as a temporary. -/
theorem is_shape_type_deduce {α : Type} (a : Argument α) :
    is_shape_type a.deduce = true ↔
      ((∃ s, a.object = .inl s) ∧ a.passing = Passing.temporary) := by
  rcases a with ⟨o, c⟩
  cases c <;> rcases o with s | v <;> simp [Argument.deduce, is_shape_type]
  cases s <;> simp [is_shape_type]

/-- C14, the code at the failing input: a `diagonal` passed as a named object
(also a const one) is not classified as a shape, although its type is a shape
struct. In `from_properties(4x4, d, 42)` it is not merged into the band, which
stays `(3, 3)`, and it is kept in the leftover sequence; the same object
passed as a temporary gives the band `(0, 0)` and the leftover `[42]`. -/
theorem named_shape_not_classified :
    is_shape_type (Argument.deduce (⟨.inl .diagonal, .temporary⟩ : Argument Nat)) = true ∧
    is_shape_type (Argument.deduce (⟨.inl .diagonal, .named⟩ : Argument Nat)) = false ∧
    is_shape_type (Argument.deduce (⟨.inl .diagonal, .const_named⟩ : Argument Nat)) = false ∧
    from_properties ⟨4, 4⟩
      [Argument.deduce (⟨.inl .diagonal, .named⟩ : Argument Nat),
       Argument.deduce ⟨.inr 42, .temporary⟩] =
        .ok (⟨3, 3⟩, [.inl .diagonal, .inr 42]) ∧
    from_properties ⟨4, 4⟩
      [Argument.deduce (⟨.inl .diagonal, .temporary⟩ : Argument Nat),
       Argument.deduce ⟨.inr 42, .temporary⟩] =
        .ok (⟨0, 0⟩, [.inr 42]) :=
  ⟨rfl, rfl, rfl, rfl, rfl⟩

/-! ## Unsigned arithmetic -/

/-- C15: `rows - 1` and `cols - 1` are computed modulo `2^32` without a guard.
With `rows = 0` the constructor `band(size)`, `general.to_band` and
`lower_triangular.to_band` return `lower = 2^32 - 1`; with `cols = 0` the
constructor, `general.to_band` and `upper_triangular.to_band` return
`upper = 2^32 - 1`; none of them raises an error. For `rows ≥ 1`
(`cols ≥ 1`) the value is `rows - 1` (`cols - 1`) without wraparound. -/
theorem bandwidth_wraparound (size : matrix_size) :
    (∃ g u l, Shape.general.to_band size = .ok g ∧
      Shape.upper_triangular.to_band size = .ok u ∧
      Shape.lower_triangular.to_band size = .ok l ∧
      g = band.of_size size ∧
      l.lower_bandwidth = g.lower_bandwidth ∧ u.upper_bandwidth = g.upper_bandwidth ∧
      (size.rows.val = 0 → g.lower_bandwidth.val = 2 ^ 32 - 1) ∧
      (size.cols.val = 0 → g.upper_bandwidth.val = 2 ^ 32 - 1) ∧
      (1 ≤ size.rows.val → g.lower_bandwidth.val + 1 = size.rows.val) ∧
      (1 ≤ size.cols.val → g.upper_bandwidth.val + 1 = size.cols.val)) := by
  refine ⟨band.of_size size, ⟨0, size.cols - 1⟩, ⟨size.rows - 1, 0⟩,
    rfl, rfl, rfl, rfl, rfl, rfl, ?_, ?_, ?_, ?_⟩
  · intro h
    show (size.rows - 1).val = 2 ^ 32 - 1
    omega
  · intro h
    show (size.cols - 1).val = 2 ^ 32 - 1
    omega
  · intro h
    show (size.rows - 1).val + 1 = size.rows.val
    omega
  · intro h
    show (size.cols - 1).val + 1 = size.cols.val
    omega

/-- C15 at `0x0`: both bandwidths of `band(size)`, of `general.to_band`, the
lower one of `lower_triangular.to_band` and the upper one of
`upper_triangular.to_band` are `4294967295`. -/
theorem bandwidth_wraparound_witness :
    band.of_size ⟨0, 0⟩ = ⟨4294967295, 4294967295⟩ ∧
    Shape.general.to_band ⟨0, 0⟩ = .ok ⟨4294967295, 4294967295⟩ ∧
    Shape.lower_triangular.to_band ⟨0, 0⟩ = .ok ⟨4294967295, 0⟩ ∧
    Shape.upper_triangular.to_band ⟨0, 0⟩ = .ok ⟨0, 4294967295⟩ ∧
    ∃ g u l, Shape.general.to_band ⟨0, 0⟩ = .ok g ∧
      Shape.upper_triangular.to_band ⟨0, 0⟩ = .ok u ∧
      Shape.lower_triangular.to_band ⟨0, 0⟩ = .ok l ∧
      g = band.of_size ⟨0, 0⟩ ∧
      l.lower_bandwidth = g.lower_bandwidth ∧ u.upper_bandwidth = g.upper_bandwidth ∧
      g.lower_bandwidth.val = 2 ^ 32 - 1 ∧ g.upper_bandwidth.val = 2 ^ 32 - 1 := by
  refine ⟨rfl, rfl, rfl, rfl, ?_⟩
  obtain ⟨g, u, l, h1, h2, h3, h4, h5, h6, h7, h8, _, _⟩ := bandwidth_wraparound ⟨0, 0⟩
  exact ⟨g, u, l, h1, h2, h3, h4, h5, h6, h7 rfl, h8 rfl⟩

/-! ## Auxiliary lemmas on the merge over a list of shapes -/

theorem merge_band_idem_aux (a : band) : merge_band a a = a :=
  band_ext (by rw [merge_band_lower, min_self]) (by rw [merge_band_upper, min_self])

/-- A band merged into the start of the accumulation can be merged in at the
end instead. -/
theorem foldl_merge_band_init (tb : Shape → band) (ss : List Shape) :
    ∀ a b : band, ss.foldl (fun acc s => merge_band acc (tb s)) (merge_band a b) =
      merge_band a (ss.foldl (fun acc s => merge_band acc (tb s)) b) := by
  induction ss with
  | nil => intro a b; rfl
  | cons s ss ih =>
    intro a b
    simp only [List.foldl_cons]
    rw [merge_band_assoc_aux, ih]

/-- The accumulation absorbs its own start value. -/
theorem foldl_merge_band_absorb_init (tb : Shape → band) (ss : List Shape) (b : band) :
    merge_band (ss.foldl (fun acc s => merge_band acc (tb s)) b) b =
      ss.foldl (fun acc s => merge_band acc (tb s)) b := by
  have h := foldl_merge_band_init tb ss b b
  rw [merge_band_idem_aux] at h
  rw [merge_band_comm_aux]
  exact h.symm

/-- The accumulation over a concatenation is the merge of the two
accumulations. -/
theorem foldl_merge_band_append (tb : Shape → band) (sx sy : List Shape) (b : band) :
    (sx ++ sy).foldl (fun acc s => merge_band acc (tb s)) b =
      merge_band (sx.foldl (fun acc s => merge_band acc (tb s)) b)
        (sy.foldl (fun acc s => merge_band acc (tb s)) b) := by
  rw [List.foldl_append, ← foldl_merge_band_absorb_init tb sx b, foldl_merge_band_init,
    foldl_merge_band_absorb_init]

/-- The accumulation absorbs the band of every shape of the list. -/
theorem foldl_merge_band_absorb_mem (tb : Shape → band) (ss : List Shape) :
    ∀ (b : band) (s : Shape), s ∈ ss →
      merge_band (ss.foldl (fun acc s => merge_band acc (tb s)) b) (tb s) =
        ss.foldl (fun acc s => merge_band acc (tb s)) b := by
  induction ss with
  | nil => intro b s hs; cases hs
  | cons x ss ih =>
    intro b s hs
    simp only [List.foldl_cons]
    rcases List.mem_cons.mp hs with rfl | h
    · rw [foldl_merge_band_init, merge_band_assoc_aux, foldl_merge_band_absorb_init]
    · exact ih _ s h

/-- What a successful call of `from_properties` returns. -/
theorem from_properties_ok_iff {α : Type} (size : matrix_size) (ps : List (Property α))
    (r : band × List α) :
    from_properties size ps = .ok r ↔
      (ps ≠ [] ∧ ¬ (Property.shape Shape.self_adjoint ∈ ps ∧ size.rows ≠ size.cols) ∧
        r = ((ps.filterMap Property.shape?).foldl
              (fun acc s => merge_band acc (s.band_at size)) (band.of_size size),
             ps.filterMap Property.other?)) := by
  rcases from_properties_cases size ps with ⟨h0, h⟩ | ⟨hm, hn, h⟩ | ⟨h0, hn, h⟩
  · rw [h]
    exact ⟨fun e => (by cases e), fun ⟨c, _⟩ => absurd h0 c⟩
  · rw [h]
    exact ⟨fun e => (by cases e), fun ⟨_, c, _⟩ => absurd ⟨hm, hn⟩ c⟩
  · rw [h]
    constructor
    · intro e
      injection e with e
      exact ⟨h0, hn, e.symm⟩
    · rintro ⟨_, _, e⟩
      rw [e]

/-! ## The fold and the band invariant -/

/-- C16: for `rows ≥ 1` and `cols ≥ 1`, whenever `from_properties` succeeds
the band it returns has `lower ≤ rows - 1` and `upper ≤ cols - 1`, whatever
the shapes of the list return (an explicit band wider than the matrix,
`tridiagonal` on a single row or column). -/
theorem from_properties_within_size {α : Type} (size : matrix_size)
    (ps : List (Property α)) (r : band × List α)
    (hr : 1 ≤ size.rows.val) (hc : 1 ≤ size.cols.val)
    (h : from_properties size ps = .ok r) :
    r.1.lower_bandwidth.val ≤ size.rows.val - 1 ∧
    r.1.upper_bandwidth.val ≤ size.cols.val - 1 := by
  obtain ⟨_, _, rfl⟩ := (from_properties_ok_iff size ps r).mp h
  have habs := foldl_merge_band_absorb_init (fun s => s.band_at size)
    (ps.filterMap Property.shape?) (band.of_size size)
  have h1 : (size.rows - 1).val = size.rows.val - 1 := by omega
  have h2 : (size.cols - 1).val = size.cols.val - 1 := by omega
  constructor
  · have hl := congrArg band.lower_bandwidth habs
    rw [merge_band_lower] at hl
    have : ((ps.filterMap Property.shape?).foldl
        (fun acc s => merge_band acc (s.band_at size)) (band.of_size size)).lower_bandwidth ≤
        size.rows - 1 := by
      rw [← hl]
      exact min_le_right _ _
    rw [← h1]
    exact this
  · have hu := congrArg band.upper_bandwidth habs
    rw [merge_band_upper] at hu
    have : ((ps.filterMap Property.shape?).foldl
        (fun acc s => merge_band acc (s.band_at size)) (band.of_size size)).upper_bandwidth ≤
        size.cols - 1 := by
      rw [← hu]
      exact min_le_right _ _
    rw [← h2]
    exact this

/-- C16 at `3x3` with an explicit `band(10, 10)`: the result band is `(2, 2)`;
at `1x4` with `tridiagonal`: the result band is `(0, 1)`. -/
theorem from_properties_within_size_witness :
    from_properties ⟨3, 3⟩
      ([.shape (.band ⟨10, 10⟩), .other 5] : List (Property Nat)) = .ok (⟨2, 2⟩, [5]) ∧
    from_properties ⟨1, 4⟩
      ([.shape .tridiagonal] : List (Property Nat)) = .ok (⟨0, 1⟩, []) ∧
    ((⟨2, 2⟩ : band).lower_bandwidth.val ≤ (3 : uint32_t).val - 1 ∧
      (⟨2, 2⟩ : band).upper_bandwidth.val ≤ (3 : uint32_t).val - 1) ∧
    ((⟨0, 1⟩ : band).lower_bandwidth.val ≤ (1 : uint32_t).val - 1 ∧
      (⟨0, 1⟩ : band).upper_bandwidth.val ≤ (4 : uint32_t).val - 1) :=
  ⟨rfl, rfl,
   from_properties_within_size ⟨3, 3⟩
     ([.shape (.band ⟨10, 10⟩), .other 5] : List (Property Nat)) (⟨2, 2⟩, [5])
     (by decide) (by decide) rfl,
   from_properties_within_size ⟨1, 4⟩
     ([.shape .tridiagonal] : List (Property Nat)) (⟨0, 1⟩, [])
     (by decide) (by decide) rfl⟩

/-! ## Concatenation, neutral and absorbing shapes -/

/-- C17: for non-empty lists `xs` and `ys`, the fold succeeds on `xs ++ ys` if
and only if it succeeds on both, and then its band is the merge of the two
bands and its leftover sequence the concatenation of the two leftover
sequences. -/
theorem from_properties_append {α : Type} (size : matrix_size)
    (xs ys : List (Property α)) (hx : xs ≠ []) (hy : ys ≠ []) :
    ((∃ r, from_properties size (xs ++ ys) = .ok r) ↔
      ((∃ rx, from_properties size xs = .ok rx) ∧
        (∃ ry, from_properties size ys = .ok ry))) ∧
    ∀ rx ry, from_properties size xs = .ok rx → from_properties size ys = .ok ry →
      from_properties size (xs ++ ys) = .ok (merge_band rx.1 ry.1, rx.2 ++ ry.2) := by
  have hxy : xs ++ ys ≠ [] := by simp [hx]
  have hsa : (Property.shape Shape.self_adjoint ∈ xs ++ ys ∧ size.rows ≠ size.cols) ↔
      ((Property.shape Shape.self_adjoint ∈ xs ∧ size.rows ≠ size.cols) ∨
        (Property.shape Shape.self_adjoint ∈ ys ∧ size.rows ≠ size.cols)) := by
    rw [List.mem_append]
    tauto
  have hboth : ∀ rx ry, from_properties size xs = .ok rx →
      from_properties size ys = .ok ry →
      from_properties size (xs ++ ys) = .ok (merge_band rx.1 ry.1, rx.2 ++ ry.2) := by
    intro rx ry ex ey
    obtain ⟨_, hnx, rfl⟩ := (from_properties_ok_iff size xs rx).mp ex
    obtain ⟨_, hny, rfl⟩ := (from_properties_ok_iff size ys ry).mp ey
    rw [from_properties_ok_iff]
    refine ⟨hxy, ?_, ?_⟩
    · rw [hsa]
      rintro (h | h)
      · exact hnx h
      · exact hny h
    · rw [List.filterMap_append, List.filterMap_append, foldl_merge_band_append]
  refine ⟨⟨?_, ?_⟩, hboth⟩
  · rintro ⟨r, e⟩
    obtain ⟨_, hn, _⟩ := (from_properties_ok_iff size (xs ++ ys) r).mp e
    rw [hsa, not_or] at hn
    exact ⟨⟨_, (from_properties_ok_iff size xs _).mpr ⟨hx, hn.1, rfl⟩⟩,
      ⟨_, (from_properties_ok_iff size ys _).mpr ⟨hy, hn.2, rfl⟩⟩⟩
  · rintro ⟨⟨rx, ex⟩, ⟨ry, ey⟩⟩
    exact ⟨_, hboth rx ry ex ey⟩

/-- C17 at `5x5`: `[LowerTriangular, 1]` gives `((4, 0), [1])`,
`[2, Tridiagonal]` gives `((1, 1), [2])`, and the concatenation gives
`((1, 0), [1, 2])`. -/
theorem from_properties_append_witness :
    from_properties ⟨5, 5⟩
      (([.shape .lower_triangular, .other 1] : List (Property Nat)) ++
        [.other 2, .shape .tridiagonal]) =
      .ok (merge_band ⟨4, 0⟩ ⟨1, 1⟩, [1] ++ [2]) ∧
    merge_band ⟨4, 0⟩ ⟨1, 1⟩ = ⟨1, 0⟩ :=
  ⟨(from_properties_append ⟨5, 5⟩
      ([.shape .lower_triangular, .other 1] : List (Property Nat))
      [.other 2, .shape .tridiagonal] (by simp) (by simp)).2
      (⟨4, 0⟩, [1]) (⟨1, 1⟩, [2]) rfl rfl, rfl⟩

/-- Inserting a shape whose `to_band` returns a band that leaves `band(size)`
unchanged under the merge does not change the outcome of the fold on a
non-empty list. -/
theorem from_properties_insert_aux {α : Type} (size : matrix_size) (s : Shape)
    (hs : s.to_band size = .ok (band.of_size size))
    (xs ys : List (Property α)) (hne : xs ++ ys ≠ []) :
    from_properties size (xs ++ Property.shape s :: ys) = from_properties size (xs ++ ys) := by
  have hnot : ¬ (s = Shape.self_adjoint ∧ size.rows ≠ size.cols) := by
    rintro ⟨rfl, hn⟩
    simp [Shape.to_band, hn] at hs
  have hsa : (Property.shape Shape.self_adjoint ∈ xs ++ Property.shape s :: ys ∧
        size.rows ≠ size.cols) ↔
      (Property.shape Shape.self_adjoint ∈ xs ++ ys ∧ size.rows ≠ size.cols) := by
    simp only [List.mem_append, List.mem_cons, Property.shape.injEq]
    constructor
    · rintro ⟨h | h | h, hn⟩
      · exact ⟨Or.inl h, hn⟩
      · exact absurd ⟨h.symm, hn⟩ hnot
      · exact ⟨Or.inr h, hn⟩
    · rintro ⟨h | h, hn⟩
      · exact ⟨Or.inl h, hn⟩
      · exact ⟨Or.inr (Or.inr h), hn⟩
  rcases from_properties_cases size (xs ++ ys) with ⟨h0, _⟩ | ⟨hm, hn, h⟩ | ⟨_, hn, h⟩
  · exact absurd h0 hne
  · rw [h]
    rcases from_properties_cases size (xs ++ Property.shape s :: ys) with
      ⟨k0, _⟩ | ⟨_, _, k⟩ | ⟨_, kn, _⟩
    · simp at k0
    · exact k
    · exact absurd (hsa.mpr ⟨hm, hn⟩) kn
  · rw [h, from_properties_ok_iff]
    refine ⟨by simp, fun c => hn (hsa.mp c), ?_⟩
    have hb : s.band_at size = band.of_size size := band_at_of_ok s size _ hs
    have e1 : (xs ++ Property.shape s :: ys).filterMap Property.shape? =
        xs.filterMap Property.shape? ++ s :: ys.filterMap Property.shape? := by
      simp [List.filterMap_append, Property.shape?]
    have e2 : (xs ++ Property.shape s :: ys).filterMap Property.other? =
        (xs ++ ys).filterMap Property.other? := by
      simp [List.filterMap_append, Property.other?]
    rw [e1, e2, List.filterMap_append, List.foldl_append, List.foldl_append,
      List.foldl_cons, hb, foldl_merge_band_absorb_init]

/-- C18: on a non-empty list, inserting a `general` argument at any position
changes neither the band nor the leftover sequence nor whether the fold
succeeds; the same holds for a `self_adjoint` argument when `rows = cols`. -/
theorem from_properties_insert_neutral {α : Type} (size : matrix_size)
    (xs ys : List (Property α)) (hne : xs ++ ys ≠ []) :
    from_properties size (xs ++ Property.shape Shape.general :: ys) =
      from_properties size (xs ++ ys) ∧
    (size.rows = size.cols →
      from_properties size (xs ++ Property.shape Shape.self_adjoint :: ys) =
        from_properties size (xs ++ ys)) := by
  refine ⟨from_properties_insert_aux size Shape.general rfl xs ys hne, fun heq => ?_⟩
  apply from_properties_insert_aux size Shape.self_adjoint _ xs ys hne
  simp [Shape.to_band, heq, band.of_size]

/-- C18 at `4x4`: `[UpperTriangular, 7]` with `general` inserted between the
two and with `self_adjoint` inserted in front. -/
theorem from_properties_insert_neutral_witness :
    from_properties ⟨4, 4⟩
      ([.shape .upper_triangular, .shape .general, .other 7] : List (Property Nat)) =
      from_properties ⟨4, 4⟩ ([.shape .upper_triangular, .other 7] : List (Property Nat)) ∧
    from_properties ⟨4, 4⟩
      ([.shape .self_adjoint, .shape .upper_triangular, .other 7] : List (Property Nat)) =
      from_properties ⟨4, 4⟩ ([.shape .upper_triangular, .other 7] : List (Property Nat)) ∧
    from_properties ⟨4, 4⟩ ([.shape .upper_triangular, .other 7] : List (Property Nat)) =
      .ok (⟨0, 3⟩, [7]) :=
  ⟨(from_properties_insert_neutral ⟨4, 4⟩
      ([.shape .upper_triangular] : List (Property Nat)) [.other 7] (by simp)).1,
   (from_properties_insert_neutral ⟨4, 4⟩
      ([] : List (Property Nat)) [.shape .upper_triangular, .other 7] (by simp)).2 rfl,
   rfl⟩

/-- C19: whenever the fold succeeds on a list that holds a `diagonal`
argument, or both an `upper_triangular` and a `lower_triangular` argument, the
band it returns is `(0, 0)`. -/
theorem from_properties_diagonal_absorbs {α : Type} (size : matrix_size)
    (ps : List (Property α)) (r : band × List α)
    (h : from_properties size ps = .ok r)
    (hd : Property.shape Shape.diagonal ∈ ps ∨
      (Property.shape Shape.upper_triangular ∈ ps ∧
        Property.shape Shape.lower_triangular ∈ ps)) :
    r.1 = ⟨0, 0⟩ := by
  obtain ⟨_, _, rfl⟩ := (from_properties_ok_iff size ps r).mp h
  have habs := fun s hs => foldl_merge_band_absorb_mem (fun s => s.band_at size)
    (ps.filterMap Property.shape?) (band.of_size size) s
    ((mem_filterMap_shape ps s).mpr hs)
  have hzero : ∀ x : uint32_t, x ≤ 0 → x = 0 := fun x hx => le_antisymm hx (Fin.zero_le x)
  rcases hd with hd | ⟨hu, hl⟩
  · have h1 := habs _ hd
    have hl := congrArg band.lower_bandwidth h1
    have hu := congrArg band.upper_bandwidth h1
    rw [merge_band_lower] at hl
    rw [merge_band_upper] at hu
    apply band_ext
    · apply hzero
      rw [← hl]
      exact min_le_right _ _
    · apply hzero
      rw [← hu]
      exact min_le_right _ _
  · have h1 := congrArg band.lower_bandwidth (habs _ hu)
    have h2 := congrArg band.upper_bandwidth (habs _ hl)
    rw [merge_band_lower] at h1
    rw [merge_band_upper] at h2
    apply band_ext
    · apply hzero
      rw [← h1]
      exact min_le_right _ _
    · apply hzero
      rw [← h2]
      exact min_le_right _ _

/-- C19 at `6x4`: `[Tridiagonal, 3, Diagonal]` and
`[LowerTriangular, band(2, 3), UpperTriangular]` both give the band `(0, 0)`. -/
theorem from_properties_diagonal_absorbs_witness :
    from_properties ⟨6, 4⟩
      ([.shape .tridiagonal, .other 3, .shape .diagonal] : List (Property Nat)) =
      .ok (⟨0, 0⟩, [3]) ∧
    from_properties ⟨6, 4⟩
      ([.shape .lower_triangular, .shape (.band ⟨2, 3⟩), .shape .upper_triangular] :
        List (Property Nat)) = .ok (⟨0, 0⟩, []) ∧
    ((⟨0, 0⟩, [3]) : band × List Nat).1 = ⟨0, 0⟩ ∧
    ((⟨0, 0⟩, []) : band × List Nat).1 = ⟨0, 0⟩ :=
  ⟨rfl, rfl,
   from_properties_diagonal_absorbs ⟨6, 4⟩
     ([.shape .tridiagonal, .other 3, .shape .diagonal] : List (Property Nat))
     (⟨0, 0⟩, [3]) rfl (Or.inl (by simp)),
   from_properties_diagonal_absorbs ⟨6, 4⟩
     ([.shape .lower_triangular, .shape (.band ⟨2, 3⟩), .shape .upper_triangular] :
       List (Property Nat))
     (⟨0, 0⟩, []) rfl (Or.inr ⟨by simp, by simp⟩)⟩
